import Mathlib

/-!
Verification of the mass-univariate OLS engine of pylearn-mulm.

This file is a shallow embedding of the class MUOLS of src/mulm/models.py.
Matrices over the rationals stand for the numeric arrays of the code; the
library calls of the code (scipy.linalg.pinv, np.linalg.matrix_rank,
np.sqrt, scipy.stats.t.sf, scipy.stats.f.sf) are passed to each embedded
method as explicit function parameters, and the theorems constrain them at
the points where the code applies them (Moore-Penrose conditions for the
pseudo-inverse, agreement with the true matrix rank for the rank routine).
Each method is embedded as a function from the receiver state to the pair
of the receiver state after the call and the returned value, where raised
Python exceptions appear as Except.error.
-/

set_option linter.unusedVariables false

open Matrix

namespace Mulm

/-- Error classes observable at the Python boundary: the builtin exceptions
the module can actually raise (TypeError from np.dot applied to the None
coefficient, AttributeError from the lookup of a missing method) together
with the error classes named by the specification (NotFittedError,
DegenerateContrastError), which the module never defines nor raises. -/
inductive PyErr where
  | typeError
  | attributeError
  | notFittedError
  | degenerateContrastError
deriving DecidableEq

/-- The four Moore-Penrose conditions: Xp is the pseudo-inverse of X. This
characterises the value that scipy.linalg.pinv returns on a given matrix. -/
def IsMoorePenrose {a b : ℕ} (X : Matrix (Fin a) (Fin b) ℚ)
    (Xp : Matrix (Fin b) (Fin a) ℚ) : Prop :=
  X * Xp * X = X ∧ Xp * X * Xp = Xp ∧ (X * Xp)ᵀ = X * Xp ∧ (Xp * X)ᵀ = Xp * X

/-- State of a MUOLS instance. The only attribute the class ever stores is
coef_, set to None by the constructor and to the p x q coefficient matrix
by fit. -/
structure MUOLS (p q : ℕ) where
  coef_ : Option (Matrix (Fin p) (Fin q) ℚ)

/-- MUOLS.__init__ : self.coef_ = None. -/
def MUOLS.init (p q : ℕ) : MUOLS p q := ⟨none⟩

/-- np.sum((Y - Ypred) ** 2, axis=0): the column-wise residual sum of
squares, as computed in MUOLS.stats, MUOLS.t_stats and MUOLS.f_stats. -/
def ssErrors {n q : ℕ} (Y Ypred : Matrix (Fin n) (Fin q) ℚ) : Fin q → ℚ :=
  fun j => ∑ i, (Y i j - Ypred i j) ^ 2

/-- MUOLS.fit : self.coef_ = np.dot(scipy.linalg.pinv(X), Y); return self.
The library call scipy.linalg.pinv is the parameter pinv. The returned
value is self after the assignment. -/
def MUOLS.fit {n p q : ℕ} (self : MUOLS p q)
    (pinv : Matrix (Fin n) (Fin p) ℚ → Matrix (Fin p) (Fin n) ℚ)
    (X : Matrix (Fin n) (Fin p) ℚ) (Y : Matrix (Fin n) (Fin q) ℚ) :
    MUOLS p q :=
  { coef_ := some (pinv X * Y) }

/-- MUOLS.predict : return np.dot(X, self.coef_). When coef_ is still None
(predict called before fit), np.dot multiplies the float design matrix with
the None object and numpy raises TypeError; the module performs no fitted
check and defines no error class of its own. -/
def MUOLS.predict {n p q : ℕ} (self : MUOLS p q)
    (X : Matrix (Fin n) (Fin p) ℚ) :
    MUOLS p q × Except PyErr (Matrix (Fin n) (Fin q) ℚ) :=
  match self.coef_ with
  | none => (self, .error .typeError)
  | some B => (self, .ok (X * B))

/-- MUOLS.stats : Ypred = self.predict(X); ss_errors = np.sum((Y - Ypred)
** 2, axis=0); then the body calls self.ols_stats_tcon(X, ss_errors,
contrast, pval) — a method defined nowhere in the class or in the module —
so the attribute lookup raises AttributeError. Before fit, the predict call
already raises TypeError. -/
def MUOLS.stats {n p q : ℕ} (self : MUOLS p q)
    (X : Matrix (Fin n) (Fin p) ℚ) (Y : Matrix (Fin n) (Fin q) ℚ)
    (contrast : Fin p → ℚ) (pval : Bool) :
    MUOLS p q × Except PyErr ((Fin q → ℚ) × (Fin q → ℚ)) :=
  match self.coef_ with
  | none => (self, .error .typeError)
  | some B =>
    let Ypred := X * B
    let ss_errors := ssErrors Y Ypred
    (self, .error .attributeError)

/-- MUOLS.t_stats (models.py lines 54-105). Ypred = self.predict(X) — a
TypeError before fit — then betas = self.coef_, the residual sums of
squares, the contrast standard error through the pseudo-inverse, and the
t statistics; p-values (upper-tail only) when pval is requested. The
library calls scipy.linalg.pinv, np.sqrt and scipy.stats.t.sf are the
parameters pinv, sqrt and tsf. The local t_values is the t_stats vector
of the code (renamed so that it does not shadow the method name). -/
def MUOLS.t_stats {n p q : ℕ} (self : MUOLS p q)
    (pinv : Matrix (Fin n) (Fin p) ℚ → Matrix (Fin p) (Fin n) ℚ)
    (sqrt : ℚ → ℚ) (tsf : ℚ → ℚ → ℚ)
    (X : Matrix (Fin n) (Fin p) ℚ) (Y : Matrix (Fin n) (Fin q) ℚ)
    (contrast : Fin p → ℚ) (pval : Bool) :
    MUOLS p q × Except PyErr ((Fin q → ℚ) × Option (Fin q → ℚ)) :=
  match self.coef_ with
  | none => (self, .error .typeError)
  | some betas =>
    let Ypred := X * betas
    let ss_errors := ssErrors Y Ypred
    let ccontrast := contrast
    let Xpinv := pinv X
    let cXpinv := ccontrast ᵥ* Xpinv
    let R := (1 : Matrix (Fin n) (Fin n) ℚ) - X * Xpinv
    let df := Matrix.trace R
    let var_errors := fun j => ss_errors j / df
    let std_cbeta := fun j => sqrt (var_errors j * (cXpinv ⬝ᵥ cXpinv))
    let t_values := fun j => (ccontrast ᵥ* betas) j / std_cbeta j
    if !pval then (self, .ok (t_values, none))
    else (self, .ok (t_values, some fun j => tsf (t_values j) df))

/-- MUOLS.f_stats (models.py lines 108-140). C1 = array2d(contrast).T, the
projector C0 onto the coefficient subspace orthogonal to C1, the reduced
design X0 = X * C0, the residual-forming matrices R0 and R of the reduced
and full models, the projection M = R0 - R, the explained sums of squares,
the rank-based degrees of freedom (the code ranks the pseudo-inverses, not
the designs), and the F statistics; p-values from scipy.stats.f.sf when
requested. The parameters pinv, pinvc, matrix_rank and fsf stand for
scipy.linalg.pinv at the two shapes it is applied at, np.linalg.matrix_rank
and scipy.stats.f.sf. The local f_values is the f_stats vector of the code. -/
def MUOLS.f_stats {n p q k : ℕ} (self : MUOLS p q)
    (pinv : Matrix (Fin n) (Fin p) ℚ → Matrix (Fin p) (Fin n) ℚ)
    (pinvc : Matrix (Fin p) (Fin k) ℚ → Matrix (Fin k) (Fin p) ℚ)
    (matrix_rank : Matrix (Fin p) (Fin n) ℚ → ℕ)
    (fsf : ℚ → ℤ → ℤ → ℚ)
    (X : Matrix (Fin n) (Fin p) ℚ) (Y : Matrix (Fin n) (Fin q) ℚ)
    (contrast : Matrix (Fin k) (Fin p) ℚ) (pval : Bool) :
    MUOLS p q × Except PyErr ((Fin q → ℚ) × Option (Fin q → ℚ)) :=
  match self.coef_ with
  | none => (self, .error .typeError)
  | some betas =>
    let YpredInit := X * betas
    let ss_errors := ssErrors Y YpredInit
    let C1 := contrastᵀ
    let Xpinv := pinv X
    let rank_x := matrix_rank Xpinv
    let C0 := (1 : Matrix (Fin p) (Fin p) ℚ) - C1 * pinvc C1
    let X0 := X * C0
    let X0pinv := pinv X0
    let rank_x0 := matrix_rank X0pinv
    let R0 := (1 : Matrix (Fin n) (Fin n) ℚ) - X0 * X0pinv
    let R := (1 : Matrix (Fin n) (Fin n) ℚ) - X * Xpinv
    let M := R0 - R
    let Ypred := X * betas
    let SS := fun j => ∑ i, Ypred i j * (M * Ypred) i j
    let df_c1 : ℤ := (rank_x : ℤ) - (rank_x0 : ℤ)
    let df_res : ℤ := (n : ℤ) - (rank_x : ℤ)
    let f_values := fun j => (SS j * (df_res : ℚ)) / (ss_errors j * (df_c1 : ℚ))
    if !pval then (self, .ok (f_values, none))
    else (self, .ok (f_values, some fun j => fsf (f_values j) df_c1 df_res))

/-- Modelled from the spec: the method MUOLS.t_test(contrast, pval,
two_tailed) that the tests of src/mulm/tests/test_mulm_ols.py call is not
part of src/mulm/models.py; this definition follows section 4.2 of the
spec. Inputs are the fitted aggregate (design X, coefficients B, cached
RSS) and a batch of k contrast rows; per contrast row c and response
column j the statistic is (c . B[:,j]) / sqrt((RSS[j]/df) quad(c)) with df
the trace of the residual-forming matrix, shared by all columns; the
one-tailed p-value is the upper-tail probability tsf(t, df) and the
two-tailed p-value is 2 * min(p, 1 - p). Returns (t values, optional p
values, df). -/
def t_test {n p q k : ℕ}
    (pinv : Matrix (Fin n) (Fin p) ℚ → Matrix (Fin p) (Fin n) ℚ)
    (sqrt : ℚ → ℚ) (tsf : ℚ → ℚ → ℚ)
    (X : Matrix (Fin n) (Fin p) ℚ) (B : Matrix (Fin p) (Fin q) ℚ)
    (RSS : Fin q → ℚ)
    (contrast : Matrix (Fin k) (Fin p) ℚ) (pval two_tailed : Bool) :
    (Fin k → Fin q → ℚ) × Option (Fin k → Fin q → ℚ) × ℚ :=
  let Xpinv := pinv X
  let df := Matrix.trace ((1 : Matrix (Fin n) (Fin n) ℚ) - X * Xpinv)
  let tv := fun (i : Fin k) (j : Fin q) =>
    (contrast i ᵥ* B) j /
      sqrt (RSS j / df * ((contrast i ᵥ* Xpinv) ⬝ᵥ (contrast i ᵥ* Xpinv)))
  let ptail := fun (i : Fin k) (j : Fin q) => tsf (tv i j) df
  let pv := fun (i : Fin k) (j : Fin q) =>
    if two_tailed then 2 * min (ptail i j) (1 - ptail i j) else ptail i j
  (tv, if pval then some pv else none, df)

/-- Modelled from the spec: the grid-wide maximum statistic of one
permutation (section 4.4), a helper of t_test_maxT below. Maximum entry of
a (k, q) grid, folded from 0 (the compared values are absolute values,
hence nonnegative, in the two-tailed case). -/
def gridMax {k q : ℕ} (t : Fin k → Fin q → ℚ) : ℚ :=
  (List.finRange k).foldl
    (fun acc i => (List.finRange q).foldl (fun acc2 j => max acc2 (t i j)) acc) 0

/-- Modelled from the spec: the method MUOLS.t_test_maxT that the tests
call is not part of src/mulm/models.py; this definition follows section
4.4 of the spec. The observed grid is the t_test output on the true data
for the fitted model of (X, Y); each permutation of the supplied list (the
explicit random source of section 9) permutes the rows of Y, refits, and
contributes the grid-wide maximum statistic to the null distribution; the
corrected p-value of an observed statistic is
(1 + count(null >= statistic)) / (1 + number of permutations). Two-tailed
runs compare absolute values, one-tailed runs the signed statistics.
Returns (t values, corrected p values, df) with the t values and df those
of the unpermuted t_test call. -/
def t_test_maxT {n p q k : ℕ}
    (pinv : Matrix (Fin n) (Fin p) ℚ → Matrix (Fin p) (Fin n) ℚ)
    (sqrt : ℚ → ℚ) (tsf : ℚ → ℚ → ℚ)
    (X : Matrix (Fin n) (Fin p) ℚ) (Y : Matrix (Fin n) (Fin q) ℚ)
    (contrast : Matrix (Fin k) (Fin p) ℚ) (two_tailed : Bool)
    (perms : List (Equiv.Perm (Fin n))) :
    (Fin k → Fin q → ℚ) × (Fin k → Fin q → ℚ) × ℚ :=
  let B := pinv X * Y
  let RSS := ssErrors Y (X * B)
  let obs := t_test pinv sqrt tsf X B RSS contrast false two_tailed
  let tvals := obs.1
  let df := obs.2.2
  let stat := fun (t : ℚ) => if two_tailed then |t| else t
  let nullDist := perms.map fun g =>
    let Yp := Y.submatrix (fun i => g i) id
    let Bp := pinv X * Yp
    let RSSp := ssErrors Yp (X * Bp)
    gridMax fun i j =>
      stat ((t_test pinv sqrt tsf X Bp RSSp contrast false two_tailed).1 i j)
  let corrected := fun (i : Fin k) (j : Fin q) =>
    ((1 + (nullDist.filter fun v => stat (tvals i j) ≤ v).length : ℕ) : ℚ) /
      ((1 + perms.length : ℕ) : ℚ)
  (tvals, corrected, df)

/-! ## Claim C1: fit computes the coefficients as pinv(X) * Y -/

/-- C1: for every design matrix X and response matrix Y (the equal row
count n is enforced by the types), when the value the pseudo-inverse
routine returns at X satisfies the Moore-Penrose conditions, fit stores as
the model coefficients exactly the product pinv(X) * Y — one matrix
product covering all q response columns at once. -/
theorem fit_coef_eq_pinv_mul {n p q : ℕ} (m : MUOLS p q)
    (pinv : Matrix (Fin n) (Fin p) ℚ → Matrix (Fin p) (Fin n) ℚ)
    (X : Matrix (Fin n) (Fin p) ℚ) (Y : Matrix (Fin n) (Fin q) ℚ)
    (hmp : IsMoorePenrose X (pinv X)) :
    (m.fit pinv X Y).coef_ = some (pinv X * Y) := rfl

/-- Witness for C1 at the 2 x 2 identity design, whose pseudo-inverse is
its transpose. -/
theorem fit_coef_eq_pinv_mul_witness :
    IsMoorePenrose (1 : Matrix (Fin 2) (Fin 2) ℚ)
      ((fun M : Matrix (Fin 2) (Fin 2) ℚ => Mᵀ) 1) ∧
    ((MUOLS.init 2 2).fit (fun M => Mᵀ) 1 !![(1 : ℚ), 2; 3, 4]).coef_ =
      some ((fun M : Matrix (Fin 2) (Fin 2) ℚ => Mᵀ) 1 * !![(1 : ℚ), 2; 3, 4]) := by
  have h : IsMoorePenrose (1 : Matrix (Fin 2) (Fin 2) ℚ)
      ((fun M : Matrix (Fin 2) (Fin 2) ℚ => Mᵀ) 1) := by
    simp [IsMoorePenrose]
  exact ⟨h, fit_coef_eq_pinv_mul (MUOLS.init 2 2) (fun M => Mᵀ) 1 !![(1 : ℚ), 2; 3, 4] h⟩

/-! ## Claim C7: predict before fit -/

/-- C7 counterexample: predict called before fit on a concrete input does
not fail with NotFittedError: the module never defines or raises that
class; the failure is the TypeError numpy raises when np.dot multiplies
the design matrix with the None coefficient. -/
theorem predict_before_fit_not_notFittedError :
    ((MUOLS.init 1 1).predict (1 : Matrix (Fin 1) (Fin 1) ℚ)).2 ≠
      Except.error PyErr.notFittedError := by
  simp [MUOLS.init, MUOLS.predict]

/-- C7 amended: for every input matrix, predict called before fit fails —
with the TypeError from np.dot(X, None) — because the constructor leaves
coef_ = None and predict makes no fitted check; no NotFittedError exists
in the module. -/
theorem predict_before_fit_typeError {n p q : ℕ} (X : Matrix (Fin n) (Fin p) ℚ) :
    ((MUOLS.init p q).predict X).2 = Except.error PyErr.typeError := rfl

/-! ## Claim C8: the statistic methods never mutate the fitted state -/

/-- C8: predict, t_stats and f_stats all return the receiver state exactly
as it was: the stored coef_ (the only attribute of a MUOLS instance) is
unchanged by every operation after fit. -/
theorem methods_leave_state_unchanged {n p q k : ℕ} (m : MUOLS p q)
    (pinv : Matrix (Fin n) (Fin p) ℚ → Matrix (Fin p) (Fin n) ℚ)
    (pinvc : Matrix (Fin p) (Fin k) ℚ → Matrix (Fin k) (Fin p) ℚ)
    (matrix_rank : Matrix (Fin p) (Fin n) ℚ → ℕ)
    (sqrt : ℚ → ℚ) (tsf : ℚ → ℚ → ℚ) (fsf : ℚ → ℤ → ℤ → ℚ)
    (X : Matrix (Fin n) (Fin p) ℚ) (Y : Matrix (Fin n) (Fin q) ℚ)
    (c : Fin p → ℚ) (contrast : Matrix (Fin k) (Fin p) ℚ)
    (pval1 pval2 pval3 : Bool) :
    (m.predict X).1 = m ∧
    (m.t_stats pinv sqrt tsf X Y c pval1).1 = m ∧
    (m.f_stats pinv pinvc matrix_rank fsf X Y contrast pval2).1 = m ∧
    (m.stats X Y c pval3).1 = m := by
  rcases m with ⟨_ | B⟩ <;> cases pval1 <;> cases pval2 <;> cases pval3 <;>
    exact ⟨rfl, rfl, rfl, rfl⟩

/-! ## Claim C2: the t statistic formula -/

/-- C2: on every fitted model, t_stats returns for each response column j
the statistic (c . B[:,j]) / sqrt((RSS[j]/df) * (c . Xpinv).(c . Xpinv)^T),
where RSS[j] is the residual sum of squares of column j against the fitted
values X * B and df is the trace of I - X * Xpinv — one scalar shared by
all q columns (it appears once, outside the dependence on j). Both the
pval = False and the pval = True call shapes are covered. -/
theorem t_stats_formula {n p q : ℕ} (m : MUOLS p q)
    (pinv : Matrix (Fin n) (Fin p) ℚ → Matrix (Fin p) (Fin n) ℚ)
    (sqrt : ℚ → ℚ) (tsf : ℚ → ℚ → ℚ)
    (X : Matrix (Fin n) (Fin p) ℚ) (Y : Matrix (Fin n) (Fin q) ℚ)
    (c : Fin p → ℚ)
    (B : Matrix (Fin p) (Fin q) ℚ) (hB : m.coef_ = some B) :
    let df := Matrix.trace ((1 : Matrix (Fin n) (Fin n) ℚ) - X * pinv X)
    let tF := fun j =>
      (∑ l, c l * B l j) /
        sqrt ((∑ i, (Y i j - ∑ l, X i l * B l j) ^ 2) / df *
          (∑ i, (∑ l, c l * pinv X l i) * (∑ l, c l * pinv X l i)))
    (m.t_stats pinv sqrt tsf X Y c false).2 = Except.ok (tF, none) ∧
    (m.t_stats pinv sqrt tsf X Y c true).2 =
      Except.ok (tF, some fun j => tsf (tF j) df) := by
  rcases m with ⟨mc⟩
  cases hB
  exact ⟨rfl, rfl⟩

/-- Witness for C2 on a concrete fitted 1 x 1 model. -/
theorem t_stats_formula_witness :
    (MUOLS.mk (some (1 : Matrix (Fin 1) (Fin 1) ℚ))).coef_ = some 1 ∧
    (let df := Matrix.trace ((1 : Matrix (Fin 1) (Fin 1) ℚ) -
        (1 : Matrix (Fin 1) (Fin 1) ℚ) * (fun M : Matrix (Fin 1) (Fin 1) ℚ => Mᵀ) 1)
     let tF := fun j : Fin 1 =>
       (∑ l, (fun _ : Fin 1 => (1 : ℚ)) l * (1 : Matrix (Fin 1) (Fin 1) ℚ) l j) /
         (fun x : ℚ => x)
           ((∑ i, ((1 : Matrix (Fin 1) (Fin 1) ℚ) i j -
               ∑ l, (1 : Matrix (Fin 1) (Fin 1) ℚ) i l *
                 (1 : Matrix (Fin 1) (Fin 1) ℚ) l j) ^ 2) / df *
             (∑ i, (∑ l, (fun _ : Fin 1 => (1 : ℚ)) l *
                 ((fun M : Matrix (Fin 1) (Fin 1) ℚ => Mᵀ) 1) l i) *
               (∑ l, (fun _ : Fin 1 => (1 : ℚ)) l *
                 ((fun M : Matrix (Fin 1) (Fin 1) ℚ => Mᵀ) 1) l i)))
     ((MUOLS.mk (some (1 : Matrix (Fin 1) (Fin 1) ℚ))).t_stats
         (fun M => Mᵀ) (fun x => x) (fun _ _ => 0)
         (1 : Matrix (Fin 1) (Fin 1) ℚ) (1 : Matrix (Fin 1) (Fin 1) ℚ)
         (fun _ => 1) false).2 = Except.ok (tF, none) ∧
     ((MUOLS.mk (some (1 : Matrix (Fin 1) (Fin 1) ℚ))).t_stats
         (fun M => Mᵀ) (fun x => x) (fun _ _ => 0)
         (1 : Matrix (Fin 1) (Fin 1) ℚ) (1 : Matrix (Fin 1) (Fin 1) ℚ)
         (fun _ => 1) true).2 =
       Except.ok (tF, some fun j => (fun _ _ : ℚ => (0 : ℚ)) (tF j) df)) :=
  ⟨rfl, t_stats_formula (MUOLS.mk (some 1)) (fun M => Mᵀ) (fun x => x)
    (fun _ _ => 0) 1 1 (fun _ => 1) 1 rfl⟩

/-! ## Claim C3: the F statistic formula -/

/-- C3: on every fitted model, with X0 the reduced design
X * (I - C1 * pinv(C1)) built from the p x k contrast C1 (the code receives
the contrast as k rows and transposes it), and when the rank routine
returns the true rank at the two pseudo-inverses it is applied to (as
np.linalg.matrix_rank does, the rank of a Moore-Penrose pseudo-inverse
being the rank of the matrix itself), f_stats computes for each response
column j the statistic F[j] = (SS[j] * df_res) / (RSS[j] * df_c1), where
SS[j] is the quadratic form of the fitted values X * B through
M = R0 - R = (I - X0 * pinv(X0)) - (I - X * pinv(X)),
df_c1 = rank(X) - rank(X0) and df_res = n - rank(X); the requested
p-values are the F survival function fsf evaluated at
(F[j], df_c1, df_res). -/
theorem f_stats_formula {n p q k : ℕ} (m : MUOLS p q)
    (pinv : Matrix (Fin n) (Fin p) ℚ → Matrix (Fin p) (Fin n) ℚ)
    (pinvc : Matrix (Fin p) (Fin k) ℚ → Matrix (Fin k) (Fin p) ℚ)
    (matrix_rank : Matrix (Fin p) (Fin n) ℚ → ℕ)
    (fsf : ℚ → ℤ → ℤ → ℚ)
    (X : Matrix (Fin n) (Fin p) ℚ) (Y : Matrix (Fin n) (Fin q) ℚ)
    (contrast : Matrix (Fin k) (Fin p) ℚ)
    (B : Matrix (Fin p) (Fin q) ℚ) (hB : m.coef_ = some B)
    (X0 : Matrix (Fin n) (Fin p) ℚ)
    (hX0 : X0 = X * ((1 : Matrix (Fin p) (Fin p) ℚ) - contrastᵀ * pinvc contrastᵀ))
    (hrx : matrix_rank (pinv X) = X.rank)
    (hrx0 : matrix_rank (pinv X0) = X0.rank) :
    let df_c1 : ℤ := (X.rank : ℤ) - (X0.rank : ℤ)
    let df_res : ℤ := (n : ℤ) - (X.rank : ℤ)
    let FF := fun j =>
      ((∑ i, (X * B) i j *
          ((((1 : Matrix (Fin n) (Fin n) ℚ) - X0 * pinv X0) -
            ((1 : Matrix (Fin n) (Fin n) ℚ) - X * pinv X)) * (X * B)) i j) *
        (df_res : ℚ)) /
        ((∑ i, (Y i j - (X * B) i j) ^ 2) * (df_c1 : ℚ))
    (m.f_stats pinv pinvc matrix_rank fsf X Y contrast true).2 =
      Except.ok (FF, some fun j => fsf (FF j) df_c1 df_res) := by
  rcases m with ⟨mc⟩
  cases hB
  subst hX0
  simp only [MUOLS.f_stats, hrx, hrx0, ssErrors, Bool.not_true,
    Bool.false_eq_true, if_false]

/-- Witness for C3 on a concrete fitted 1 x 1 model with the identity
design (rank one) and the zero contrast. -/
theorem f_stats_formula_witness :
    (MUOLS.mk (some (1 : Matrix (Fin 1) (Fin 1) ℚ))).coef_ = some 1 ∧
    (1 : Matrix (Fin 1) (Fin 1) ℚ) =
      (1 : Matrix (Fin 1) (Fin 1) ℚ) * ((1 : Matrix (Fin 1) (Fin 1) ℚ) -
        ((0 : Matrix (Fin 1) (Fin 1) ℚ))ᵀ *
          ((fun M : Matrix (Fin 1) (Fin 1) ℚ => Mᵀ) ((0 : Matrix (Fin 1) (Fin 1) ℚ))ᵀ)) ∧
    (fun _ : Matrix (Fin 1) (Fin 1) ℚ => (1 : ℕ))
        ((fun M : Matrix (Fin 1) (Fin 1) ℚ => Mᵀ) (1 : Matrix (Fin 1) (Fin 1) ℚ)) =
      (1 : Matrix (Fin 1) (Fin 1) ℚ).rank ∧
    (let df_c1 : ℤ := ((1 : Matrix (Fin 1) (Fin 1) ℚ).rank : ℤ) -
        ((1 : Matrix (Fin 1) (Fin 1) ℚ).rank : ℤ)
     let df_res : ℤ := ((1 : ℕ) : ℤ) - ((1 : Matrix (Fin 1) (Fin 1) ℚ).rank : ℤ)
     let FF := fun j : Fin 1 =>
       ((∑ i, ((1 : Matrix (Fin 1) (Fin 1) ℚ) * (1 : Matrix (Fin 1) (Fin 1) ℚ)) i j *
           ((((1 : Matrix (Fin 1) (Fin 1) ℚ) -
               (1 : Matrix (Fin 1) (Fin 1) ℚ) *
                 (fun M : Matrix (Fin 1) (Fin 1) ℚ => Mᵀ) (1 : Matrix (Fin 1) (Fin 1) ℚ)) -
             ((1 : Matrix (Fin 1) (Fin 1) ℚ) -
               (1 : Matrix (Fin 1) (Fin 1) ℚ) *
                 (fun M : Matrix (Fin 1) (Fin 1) ℚ => Mᵀ) (1 : Matrix (Fin 1) (Fin 1) ℚ))) *
            ((1 : Matrix (Fin 1) (Fin 1) ℚ) * (1 : Matrix (Fin 1) (Fin 1) ℚ))) i j) *
         (df_res : ℚ)) /
         ((∑ i, ((1 : Matrix (Fin 1) (Fin 1) ℚ) i j -
             ((1 : Matrix (Fin 1) (Fin 1) ℚ) * (1 : Matrix (Fin 1) (Fin 1) ℚ)) i j) ^ 2) *
           (df_c1 : ℚ))
     ((MUOLS.mk (some (1 : Matrix (Fin 1) (Fin 1) ℚ))).f_stats
         (fun M => Mᵀ) (fun M => Mᵀ) (fun _ => 1) (fun _ _ _ => 0)
         (1 : Matrix (Fin 1) (Fin 1) ℚ) (1 : Matrix (Fin 1) (Fin 1) ℚ)
         (0 : Matrix (Fin 1) (Fin 1) ℚ) true).2 =
       Except.ok (FF, some fun j => (fun _ : ℚ => fun _ _ : ℤ => (0 : ℚ)) (FF j) df_c1 df_res)) := by
  have hX0 : (1 : Matrix (Fin 1) (Fin 1) ℚ) =
      (1 : Matrix (Fin 1) (Fin 1) ℚ) * ((1 : Matrix (Fin 1) (Fin 1) ℚ) -
        ((0 : Matrix (Fin 1) (Fin 1) ℚ))ᵀ *
          ((fun M : Matrix (Fin 1) (Fin 1) ℚ => Mᵀ) ((0 : Matrix (Fin 1) (Fin 1) ℚ))ᵀ)) := by
    simp
  have hrk : (fun _ : Matrix (Fin 1) (Fin 1) ℚ => (1 : ℕ))
      ((fun M : Matrix (Fin 1) (Fin 1) ℚ => Mᵀ) (1 : Matrix (Fin 1) (Fin 1) ℚ)) =
      (1 : Matrix (Fin 1) (Fin 1) ℚ).rank := by
    simp [Matrix.rank_one]
  exact ⟨rfl, hX0, hrk,
    f_stats_formula (MUOLS.mk (some 1)) (fun M => Mᵀ) (fun M => Mᵀ)
      (fun _ => 1) (fun _ _ _ => 0) (1 : Matrix (Fin 1) (Fin 1) ℚ)
      (1 : Matrix (Fin 1) (Fin 1) ℚ) (0 : Matrix (Fin 1) (Fin 1) ℚ)
      1 rfl (1 : Matrix (Fin 1) (Fin 1) ℚ) hX0 hrk hrk⟩

/-! ## Claim C5: one- and two-tailed p-values of t_test -/

/-- C5: in the spec-modelled t_test with p-values requested, the two-tailed
p-value of every statistic is 2 * min(p1, 1 - p1) for p1 the upper-tail
probability tsf(t, df), the one-tailed p-value is p1 itself, and — for a
positive statistic whose upper-tail probability is at most 1/2, as the
Student-t survival function of a positive argument always is — the
two-tailed p-value equals exactly twice the one-tailed one. -/
theorem t_test_two_tailed_doubles {n p q k : ℕ}
    (pinv : Matrix (Fin n) (Fin p) ℚ → Matrix (Fin p) (Fin n) ℚ)
    (sqrt : ℚ → ℚ) (tsf : ℚ → ℚ → ℚ)
    (X : Matrix (Fin n) (Fin p) ℚ) (B : Matrix (Fin p) (Fin q) ℚ)
    (RSS : Fin q → ℚ) (contrast : Matrix (Fin k) (Fin p) ℚ)
    (i : Fin k) (j : Fin q)
    (hpos : 0 < (t_test pinv sqrt tsf X B RSS contrast true true).1 i j)
    (hhalf : tsf ((t_test pinv sqrt tsf X B RSS contrast true true).1 i j)
        ((t_test pinv sqrt tsf X B RSS contrast true true).2.2) ≤ 1 / 2) :
    (t_test pinv sqrt tsf X B RSS contrast true true).2.1 =
      some (fun i2 j2 =>
        2 * min (tsf ((t_test pinv sqrt tsf X B RSS contrast true true).1 i2 j2)
              ((t_test pinv sqrt tsf X B RSS contrast true true).2.2))
          (1 - tsf ((t_test pinv sqrt tsf X B RSS contrast true true).1 i2 j2)
              ((t_test pinv sqrt tsf X B RSS contrast true true).2.2))) ∧
    (t_test pinv sqrt tsf X B RSS contrast true false).2.1 =
      some (fun i2 j2 =>
        tsf ((t_test pinv sqrt tsf X B RSS contrast true false).1 i2 j2)
          ((t_test pinv sqrt tsf X B RSS contrast true false).2.2)) ∧
    2 * min (tsf ((t_test pinv sqrt tsf X B RSS contrast true true).1 i j)
          ((t_test pinv sqrt tsf X B RSS contrast true true).2.2))
        (1 - tsf ((t_test pinv sqrt tsf X B RSS contrast true true).1 i j)
          ((t_test pinv sqrt tsf X B RSS contrast true true).2.2)) =
      2 * tsf ((t_test pinv sqrt tsf X B RSS contrast true true).1 i j)
          ((t_test pinv sqrt tsf X B RSS contrast true true).2.2) := by
  refine ⟨rfl, rfl, ?_⟩
  have hle : tsf ((t_test pinv sqrt tsf X B RSS contrast true true).1 i j)
        ((t_test pinv sqrt tsf X B RSS contrast true true).2.2) ≤
      1 - tsf ((t_test pinv sqrt tsf X B RSS contrast true true).1 i j)
        ((t_test pinv sqrt tsf X B RSS contrast true true).2.2) := by
    linarith
  rw [min_eq_left hle]

/-- Witness for C5: a concrete 1 x 1 instance with statistic 1 and
upper-tail probability 1/4, where the two-tailed p-value 1/2 is twice the
one-tailed 1/4. -/
theorem t_test_two_tailed_doubles_witness :
    0 < (t_test (fun M => Mᵀ) (fun _ => 1) (fun _ _ => 1/4)
        (1 : Matrix (Fin 1) (Fin 1) ℚ) (1 : Matrix (Fin 1) (Fin 1) ℚ)
        (fun _ => 1) (1 : Matrix (Fin 1) (Fin 1) ℚ) true true).1 0 0 ∧
    (fun _ _ : ℚ => (1 : ℚ)/4)
        ((t_test (fun M => Mᵀ) (fun _ => 1) (fun _ _ => 1/4)
          (1 : Matrix (Fin 1) (Fin 1) ℚ) (1 : Matrix (Fin 1) (Fin 1) ℚ)
          (fun _ => 1) (1 : Matrix (Fin 1) (Fin 1) ℚ) true true).1 0 0)
        ((t_test (fun M => Mᵀ) (fun _ => 1) (fun _ _ => 1/4)
          (1 : Matrix (Fin 1) (Fin 1) ℚ) (1 : Matrix (Fin 1) (Fin 1) ℚ)
          (fun _ => 1) (1 : Matrix (Fin 1) (Fin 1) ℚ) true true).2.2) ≤ 1 / 2 ∧
    2 * min ((1 : ℚ)/4) (1 - (1 : ℚ)/4) = 2 * ((1 : ℚ)/4) := by
  have hpos : 0 < (t_test (fun M => Mᵀ) (fun _ => 1) (fun _ _ => (1 : ℚ)/4)
      (1 : Matrix (Fin 1) (Fin 1) ℚ) (1 : Matrix (Fin 1) (Fin 1) ℚ)
      (fun _ => 1) (1 : Matrix (Fin 1) (Fin 1) ℚ) true true).1 0 0 := by
    norm_num [t_test, Matrix.vecMul, Matrix.dotProduct, Matrix.mul_apply,
      Matrix.trace, Matrix.diag, Fin.sum_univ_succ]
  have hhalf : (fun _ _ : ℚ => (1 : ℚ)/4)
      ((t_test (fun M => Mᵀ) (fun _ => 1) (fun _ _ => (1 : ℚ)/4)
        (1 : Matrix (Fin 1) (Fin 1) ℚ) (1 : Matrix (Fin 1) (Fin 1) ℚ)
        (fun _ => 1) (1 : Matrix (Fin 1) (Fin 1) ℚ) true true).1 0 0)
      ((t_test (fun M => Mᵀ) (fun _ => 1) (fun _ _ => (1 : ℚ)/4)
        (1 : Matrix (Fin 1) (Fin 1) ℚ) (1 : Matrix (Fin 1) (Fin 1) ℚ)
        (fun _ => 1) (1 : Matrix (Fin 1) (Fin 1) ℚ) true true).2.2) ≤ 1 / 2 := by
    norm_num
  refine ⟨hpos, hhalf, ?_⟩
  exact (t_test_two_tailed_doubles (fun M => Mᵀ) (fun _ => 1) (fun _ _ => 1/4)
    (1 : Matrix (Fin 1) (Fin 1) ℚ) (1 : Matrix (Fin 1) (Fin 1) ℚ)
    (fun _ => 1) (1 : Matrix (Fin 1) (Fin 1) ℚ) 0 0 hpos hhalf).2.2

/-! ## Claim C4: degenerate contrasts in f_stats -/

/-- A concrete rank-one 2 x 2 design matrix, diag(1, 0). It is symmetric
and idempotent, so it is its own Moore-Penrose pseudo-inverse. -/
def Dmat : Matrix (Fin 2) (Fin 2) ℚ := Matrix.diagonal ![1, 0]

/-- diag(1, 0) is symmetric. -/
theorem Dmat_transpose : Dmatᵀ = Dmat := by
  simp [Dmat]

/-- diag(1, 0) is idempotent. -/
theorem Dmat_idem : Dmat * Dmat = Dmat := by
  ext i j
  fin_cases i <;> fin_cases j <;>
    norm_num [Dmat, Matrix.mul_apply, Fin.sum_univ_succ, Matrix.diagonal]

/-- diag(1, 0) has rank one. -/
theorem Dmat_rank : Dmat.rank = 1 := by
  rw [Dmat, Matrix.rank_diagonal, Fintype.card_subtype]
  rw [show (Finset.univ.filter fun i : Fin 2 => ![(1:ℚ), 0] i ≠ 0) = {0} from by
    ext i
    fin_cases i <;> simp]
  simp

/-- C4 counterexample: a concrete fitted model with the zero contrast. The
pseudo-inverse values used satisfy the Moore-Penrose conditions, the
constant rank routine returns the true rank (one) of the matrices it is
applied to, the reduced design X0 equals X, so the computed contrast
degrees of freedom are rank(X) - rank(X0) = 0 — yet f_stats raises
nothing: it returns normally, each statistic being the result of dividing
by the zero denominator RSS[j] * df_c1 (the value 0 under the total field
division of this model, a silent NaN under IEEE arithmetic). -/
theorem f_stats_degenerate_counterexample :
    IsMoorePenrose Dmat Dmatᵀ ∧
    IsMoorePenrose ((0 : Matrix (Fin 1) (Fin 2) ℚ))ᵀ (((0 : Matrix (Fin 1) (Fin 2) ℚ))ᵀ)ᵀ ∧
    Dmat.rank = 1 ∧
    (Dmat.rank : ℤ) -
      ((Dmat * ((1 : Matrix (Fin 2) (Fin 2) ℚ) -
        ((0 : Matrix (Fin 1) (Fin 2) ℚ))ᵀ *
          ((fun M : Matrix (Fin 2) (Fin 1) ℚ => Mᵀ)
            ((0 : Matrix (Fin 1) (Fin 2) ℚ))ᵀ))).rank : ℤ) = 0 ∧
    ((MUOLS.mk (some !![(1 : ℚ); 0])).f_stats (fun M => Mᵀ) (fun M => Mᵀ)
        (fun _ => 1) (fun _ _ _ => 0) Dmat !![(0 : ℚ); 2]
        (0 : Matrix (Fin 1) (Fin 2) ℚ) false) =
      (MUOLS.mk (some !![(1 : ℚ); 0]), Except.ok (fun _ => 0, none)) := by
  have hX0 : Dmat * ((1 : Matrix (Fin 2) (Fin 2) ℚ) -
      ((0 : Matrix (Fin 1) (Fin 2) ℚ))ᵀ *
        ((fun M : Matrix (Fin 2) (Fin 1) ℚ => Mᵀ)
          ((0 : Matrix (Fin 1) (Fin 2) ℚ))ᵀ)) = Dmat := by
    simp
  refine ⟨⟨?_, ?_, ?_, ?_⟩, ?_, Dmat_rank, ?_, ?_⟩
  · rw [Dmat_transpose, Dmat_idem, Dmat_idem]
  · rw [Dmat_transpose, Dmat_idem, Dmat_idem]
  · rw [Dmat_transpose, Dmat_idem, Dmat_transpose]
  · rw [Dmat_transpose, Dmat_idem, Dmat_transpose]
  · simp [IsMoorePenrose]
  · rw [hX0, Dmat_rank]
    norm_num
  · simp only [MUOLS.f_stats, Bool.not_false, if_true]
    refine Prod.ext rfl ?_
    refine congrArg Except.ok (Prod.ext ?_ rfl)
    funext j
    norm_num

/-- C4 amended: f_stats performs no degeneracy check at all: whenever the
computed contrast degrees of freedom rank(Xpinv) - rank(X0pinv) are zero,
it returns normally and every statistic is the result of dividing by the
zero denominator RSS[j] * df_c1 (0 under the total field division of this
model, NaN/Inf under IEEE arithmetic); no DegenerateContrastError exists
anywhere in the module. -/
theorem f_stats_zero_dfc1_returns {n p q k : ℕ} (m : MUOLS p q)
    (pinv : Matrix (Fin n) (Fin p) ℚ → Matrix (Fin p) (Fin n) ℚ)
    (pinvc : Matrix (Fin p) (Fin k) ℚ → Matrix (Fin k) (Fin p) ℚ)
    (matrix_rank : Matrix (Fin p) (Fin n) ℚ → ℕ)
    (fsf : ℚ → ℤ → ℤ → ℚ)
    (X : Matrix (Fin n) (Fin p) ℚ) (Y : Matrix (Fin n) (Fin q) ℚ)
    (contrast : Matrix (Fin k) (Fin p) ℚ)
    (B : Matrix (Fin p) (Fin q) ℚ) (hB : m.coef_ = some B)
    (hdf : matrix_rank (pinv X) = matrix_rank (pinv (X *
      ((1 : Matrix (Fin p) (Fin p) ℚ) - contrastᵀ * pinvc contrastᵀ)))) :
    (m.f_stats pinv pinvc matrix_rank fsf X Y contrast false).2 =
      Except.ok (fun _ => 0, none) := by
  rcases m with ⟨mc⟩
  cases hB
  simp only [MUOLS.f_stats, Bool.not_false, if_true]
  refine congrArg Except.ok (Prod.ext ?_ rfl)
  funext j
  rw [hdf]
  norm_num

/-- Witness for the amended C4 at the concrete model of the
counterexample. -/
theorem f_stats_zero_dfc1_returns_witness :
    (MUOLS.mk (some !![(1 : ℚ); 0])).coef_ = some !![(1 : ℚ); 0] ∧
    ((MUOLS.mk (some !![(1 : ℚ); 0])).f_stats (fun M => Mᵀ) (fun M => Mᵀ)
        (fun _ => 1) (fun _ _ _ => 0) Dmat !![(0 : ℚ); 2]
        (0 : Matrix (Fin 1) (Fin 2) ℚ) false).2 =
      Except.ok (fun _ => 0, none) :=
  ⟨rfl, f_stats_zero_dfc1_returns (MUOLS.mk (some !![(1 : ℚ); 0]))
    (fun M => Mᵀ) (fun M => Mᵀ) (fun _ => 1) (fun _ _ _ => 0)
    Dmat !![(0 : ℚ); 2] (0 : Matrix (Fin 1) (Fin 2) ℚ)
    !![(1 : ℚ); 0] rfl rfl⟩

/-! ## Claim C6: t_test_maxT returns the t values and df of t_test -/

/-- C6: the spec-modelled t_test_maxT returns exactly the t values and the
df that t_test returns on the same unpermuted data (the model fitted on
(X, Y)), for every contrast batch, two_tailed flag and permutation list;
the maxT correction changes only the p-values. -/
theorem t_test_maxT_tvals_df {n p q k : ℕ}
    (pinv : Matrix (Fin n) (Fin p) ℚ → Matrix (Fin p) (Fin n) ℚ)
    (sqrt : ℚ → ℚ) (tsf : ℚ → ℚ → ℚ)
    (X : Matrix (Fin n) (Fin p) ℚ) (Y : Matrix (Fin n) (Fin q) ℚ)
    (contrast : Matrix (Fin k) (Fin p) ℚ) (two_tailed pval : Bool)
    (perms : List (Equiv.Perm (Fin n))) :
    (t_test_maxT pinv sqrt tsf X Y contrast two_tailed perms).1 =
      (t_test pinv sqrt tsf X (pinv X * Y) (ssErrors Y (X * (pinv X * Y)))
        contrast pval two_tailed).1 ∧
    (t_test_maxT pinv sqrt tsf X Y contrast two_tailed perms).2.2 =
      (t_test pinv sqrt tsf X (pinv X * Y) (ssErrors Y (X * (pinv X * Y)))
        contrast pval two_tailed).2.2 :=
  ⟨rfl, rfl⟩

/-! ## Claim C9: fitting on column subsets -/

/-- C9 counterexample: restricting the columns of the design matrix X does
not commute with fit. With X = [[1, 1]], its genuine pseudo-inverse
[[1/2], [1/2]] (the Moore-Penrose conditions are proved), and Y = [[1]],
the full fit stores [[1/2], [1/2]]; fitting on the first column of X alone
(pseudo-inverse [[1]]) stores [[1]], which is not the first row of the
full coefficients. -/
theorem fit_column_subset_counterexample :
    IsMoorePenrose !![(1 : ℚ), 1] !![(1 : ℚ)/2; 1/2] ∧
    IsMoorePenrose !![(1 : ℚ)] !![(1 : ℚ)] ∧
    ((MUOLS.init 1 1).fit (fun _ => !![(1 : ℚ)]) !![(1 : ℚ)] !![(1 : ℚ)]).coef_ ≠
      Option.map (fun B => B.submatrix (fun _ : Fin 1 => (0 : Fin 2)) id)
        ((MUOLS.init 2 1).fit (fun _ => !![(1 : ℚ)/2; 1/2]) !![(1 : ℚ), 1]
          !![(1 : ℚ)]).coef_ := by
  refine ⟨⟨?_, ?_, ?_, ?_⟩, ⟨?_, ?_, ?_, ?_⟩, ?_⟩
  · ext i j
    fin_cases i
    fin_cases j <;> norm_num [Matrix.mul_apply, Fin.sum_univ_succ]
  · ext i j
    fin_cases i <;> fin_cases j <;> norm_num [Matrix.mul_apply, Fin.sum_univ_succ]
  · ext i j
    fin_cases i
    fin_cases j
    norm_num [Matrix.mul_apply, Fin.sum_univ_succ]
  · ext i j
    fin_cases i <;> fin_cases j <;> norm_num [Matrix.mul_apply, Fin.sum_univ_succ]
  · ext i j
    fin_cases i
    fin_cases j
    norm_num [Matrix.mul_apply, Fin.sum_univ_succ]
  · ext i j
    fin_cases i
    fin_cases j
    norm_num [Matrix.mul_apply, Fin.sum_univ_succ]
  · ext i j
    fin_cases i
    fin_cases j
    norm_num [Matrix.mul_apply, Fin.sum_univ_succ]
  · ext i j
    fin_cases i
    fin_cases j
    norm_num [Matrix.mul_apply, Fin.sum_univ_succ]
  · intro h
    simp only [MUOLS.fit, MUOLS.init, Option.map_some] at h
    have h2 := Option.some.inj h
    have h3 := congrFun (congrFun h2 0) 0
    norm_num [Matrix.mul_apply, Matrix.submatrix, Fin.sum_univ_succ] at h3

/-- C9 amended: restricting the columns of the response matrix Y does
commute with fit: the coefficients fitted on the restricted columns are
exactly the corresponding columns of the full fit, whatever the prior
states of the two models — fit depends on nothing but its arguments. The
analogous statement for column subsets of X is refuted by the
counterexample. -/
theorem fit_y_column_subset {n p q q2 : ℕ} (m1 : MUOLS p q2) (m2 : MUOLS p q)
    (pinv : Matrix (Fin n) (Fin p) ℚ → Matrix (Fin p) (Fin n) ℚ)
    (X : Matrix (Fin n) (Fin p) ℚ) (Y : Matrix (Fin n) (Fin q) ℚ)
    (s : Fin q2 → Fin q) :
    (m1.fit pinv X (Y.submatrix id s)).coef_ =
      Option.map (fun B => B.submatrix id s) (m2.fit pinv X Y).coef_ := by
  simp only [MUOLS.fit, Option.map_some]
  have h : pinv X * Y.submatrix id s = (pinv X * Y).submatrix id s := by
    ext i j
    simp [Matrix.mul_apply, Matrix.submatrix]
  rw [h]
  rfl

/-! ## Claim C10: stats always raises AttributeError on a fitted model -/

/-- C10: on every fitted model (coef_ = some B, so that the initial predict
call succeeds) and every input, stats reaches the call of the undefined
method ols_stats_tcon and raises AttributeError, returning no result. -/
theorem stats_raises_attributeError {n p q : ℕ} (m : MUOLS p q)
    (X : Matrix (Fin n) (Fin p) ℚ) (Y : Matrix (Fin n) (Fin q) ℚ)
    (c : Fin p → ℚ) (pval : Bool)
    (B : Matrix (Fin p) (Fin q) ℚ) (hB : m.coef_ = some B) :
    (m.stats X Y c pval).2 = Except.error PyErr.attributeError := by
  rcases m with ⟨mc⟩
  cases hB
  rfl

/-- Witness for C10 on a concrete fitted 1 x 1 model. -/
theorem stats_raises_attributeError_witness :
    (MUOLS.mk (some (1 : Matrix (Fin 1) (Fin 1) ℚ))).coef_ = some 1 ∧
    ((MUOLS.mk (some (1 : Matrix (Fin 1) (Fin 1) ℚ))).stats
        (1 : Matrix (Fin 1) (Fin 1) ℚ) (1 : Matrix (Fin 1) (Fin 1) ℚ)
        (fun _ => 1) true).2 =
      Except.error PyErr.attributeError :=
  ⟨rfl, stats_raises_attributeError (MUOLS.mk (some 1))
    (1 : Matrix (Fin 1) (Fin 1) ℚ) (1 : Matrix (Fin 1) (Fin 1) ℚ)
    (fun _ => 1) true 1 rfl⟩

end Mulm
